import Mathlib

/-!
Shallow embedding of src/download_data.py (function download_stock_data).

The source iterates over a list of ticker symbols; for each symbol it makes up
to max_retries provider requests, sleeping with exponential backoff plus jitter
after an error, a fixed 2 seconds after an empty result, breaking out on the
first non-empty result, and sleeping a fixed 1.5 seconds between symbols.
A non-empty pandas DataFrame is normalized positionally: reset_index, columns
renamed by position 0..5 to Date, Close, High, Low, Open, Volume, then Date is
made the index again.

The embedding models the external provider (yfinance) as an oracle mapping
(symbol, period, attempt) to an outcome, the random.uniform(0, 1) stream as a
jitter oracle, pandas DataFrames as Frame (cells abstracted to Int), and the
observable side effects (header assignment, provider requests, sleeps) as an
event trace, so that timing and request-count claims become statements about
the trace.
-/

/-- Column label of a pandas DataFrame: positional integer labels (after
`result.columns = range(result.shape[1])`), string names, and the anonymous
label of a default RangeIndex produced by reset_index. -/
inductive ColName where
  | anon : ColName
  | num : Nat → ColName
  | str : String → ColName
deriving DecidableEq, Repr

/-- A pandas-style indexed table: an index (name and values) plus named data
columns given row-wise. Cell and date values are abstracted to Int; none of
the source logic inspects them. -/
structure Frame where
  indexName : ColName
  indexVals : List Int
  colNames : List ColName
  rows : List (List Int)
deriving DecidableEq, Repr

/-- pandas DataFrame.empty: true when any axis has length 0. -/
def Frame.isEmpty (f : Frame) : Bool :=
  f.indexVals.isEmpty || f.colNames.isEmpty

/-- data.reset_index(drop=False): the index becomes data column 0, the new
index is an anonymous RangeIndex. -/
def resetIndex (f : Frame) : Frame :=
  { indexName := ColName.anon,
    indexVals := (List.range f.indexVals.length).map Int.ofNat,
    colNames := f.indexName :: f.colNames,
    rows := List.zipWith (fun d r => d :: r) f.indexVals f.rows }

/-- result.columns = range(result.shape[1]): column labels become 0..n-1. -/
def setRangeColumns (f : Frame) : Frame :=
  { f with colNames := (List.range f.colNames.length).map ColName.num }

/-- The rename mapping {0: Date, 1: Close, 2: High, 3: Low, 4: Open,
5: Volume}; labels not in the mapping are left unchanged. -/
def renameLabel : ColName → ColName
  | ColName.num 0 => ColName.str "Date"
  | ColName.num 1 => ColName.str "Close"
  | ColName.num 2 => ColName.str "High"
  | ColName.num 3 => ColName.str "Low"
  | ColName.num 4 => ColName.str "Open"
  | ColName.num 5 => ColName.str "Volume"
  | c => c

/-- result.rename(columns={0: Date, ..., 5: Volume}). -/
def renameColumns (f : Frame) : Frame :=
  { f with colNames := f.colNames.map renameLabel }

/-- result.set_index(lbl): the column labelled lbl becomes the index and is
removed from the data columns (pandas drops the previous index). -/
def setIndex (lbl : ColName) (f : Frame) : Frame :=
  match f.colNames.findIdx? (fun c => decide (c = lbl)) with
  | some i =>
    { indexName := lbl,
      indexVals := f.rows.map (fun r => r.getD i 0),
      colNames := f.colNames.eraseIdx i,
      rows := f.rows.map (fun r => r.eraseIdx i) }
  | none => f

/-- Lines 50-56 of download_data.py: reset_index, positional relabelling,
rename to the canonical OHLC layout, then set Date as the index. -/
def normalizeData (data : Frame) : Frame :=
  setIndex (ColName.str "Date") (renameColumns (setRangeColumns (resetIndex data)))

/-- Outcome of one provider request: a raised exception, or a returned frame
(possibly empty). -/
inductive Outcome where
  | err : Outcome
  | ok : Frame → Outcome
deriving DecidableEq, Repr

/-- A request succeeds (enters the insert-and-break branch) when it returns a
non-empty frame. -/
def Outcome.succeeds : Outcome → Bool
  | Outcome.err => false
  | Outcome.ok f => !f.isEmpty

/-- The external market-data provider, as a deterministic oracle from
(symbol, period, 0-based attempt number) to an outcome. -/
abbrev Provider := String → String → Nat → Outcome

/-- The random.uniform(0, 1) stream, indexed by symbol and 0-based attempt. -/
abbrev Jitter := String → Nat → ℚ

/-- The User-Agent string assigned at lines 37-39. -/
def userAgent : String :=
  "Mozilla/5.0 (Windows NT 10.0; Win64; x64) AppleWebKit/537.36"

/-- Observable side effects of a run, in order: assignment of the custom
header on the per-symbol client, a provider request, the backoff sleep after
an error, the fixed sleep after an empty result, and the fixed inter-symbol
sleep. Durations are in seconds. -/
inductive Event where
  | setHeader : String → String → Event
  | request : String → Nat → Event
  | sleepBackoff : String → Nat → ℚ → Event
  | sleepEmpty : String → Nat → ℚ → Event
  | sleepInterSymbol : ℚ → Event
deriving DecidableEq, Repr

/-- The stock_data dictionary: insertion-ordered keys, Python dict update
semantics. -/
abbrev StockMap := List (String × Frame)

/-- Python dict assignment stock_data[symbol] = result: replace the value at
the key if present (dict keys are unique, so replacing the first occurrence is
exact), otherwise append at the end (dicts preserve insertion order). -/
def dictInsert (k : String) (v : Frame) : StockMap → StockMap
  | [] => [(k, v)]
  | kv :: rest => if kv.1 = k then (k, v) :: rest else kv :: dictInsert k v rest

/-- Python dict lookup stock_data[symbol]. -/
def dictFind? (k : String) : StockMap → Option Frame
  | [] => none
  | kv :: rest => if kv.1 = k then some kv.2 else dictFind? k rest

/-- The inner retry loop (for attempt in range(max_retries), lines 32-73),
as structural recursion on the remaining number of attempts (fuel); attempt is
the current 0-based loop counter, so the loop is entered with fuel = mr and
attempt = 0 and fuel + attempt = mr throughout. Returns the updated dictionary
and the trace of side effects. -/
def attemptLoop (p : Provider) (j : Jitter) (period : String) (mr : Nat) (sym : String) :
    Nat → Nat → StockMap → StockMap × List Event
  | 0, _, m => (m, [])
  | fuel + 1, attempt, m =>
    match p sym period attempt with
    | Outcome.ok data =>
      if data.isEmpty = false then
        (dictInsert sym (normalizeData data) m,
         [Event.setHeader sym userAgent, Event.request sym attempt])
      else
        let sleeps : List Event :=
          if attempt < mr - 1 then [Event.sleepEmpty sym attempt 2] else []
        let r := attemptLoop p j period mr sym fuel (attempt + 1) m
        (r.1, Event.setHeader sym userAgent :: Event.request sym attempt :: (sleeps ++ r.2))
    | Outcome.err =>
      let sleeps : List Event :=
        if attempt < mr - 1 then
          [Event.sleepBackoff sym attempt ((2 : ℚ) ^ attempt + j sym attempt)]
        else []
      let r := attemptLoop p j period mr sym fuel (attempt + 1) m
      (r.1, Event.setHeader sym userAgent :: Event.request sym attempt :: (sleeps ++ r.2))

/-- One iteration of the outer symbol loop: the retry loop followed by the
unconditional time.sleep(1.5) at line 76. -/
def perSymbol (p : Provider) (j : Jitter) (period : String) (mr : Nat) (sym : String)
    (m : StockMap) : StockMap × List Event :=
  let r := attemptLoop p j period mr sym mr 0 m
  (r.1, r.2 ++ [Event.sleepInterSymbol ((3 : ℚ) / 2)])

/-- The outer loop over symbols (lines 31-76). -/
def runAux (p : Provider) (j : Jitter) (period : String) (mr : Nat) :
    List String → StockMap → StockMap × List Event
  | [], m => (m, [])
  | sym :: rest, m =>
    let r1 := perSymbol p j period mr sym m
    let r2 := runAux p j period mr rest r1.1
    (r2.1, r1.2 ++ r2.2)

/-- download_stock_data(symbols, period, max_retries): starts with an empty
dictionary and processes each symbol in order. max_retries is an Int since
Python callers may pass a non-positive value, in which case range(max_retries)
is empty. Returns the dictionary and the side-effect trace. -/
def download_stock_data (p : Provider) (j : Jitter) (symbols : List String)
    (period : String) (max_retries : Int) : StockMap × List Event :=
  runAux p j period max_retries.toNat symbols []

/-- Number of request events for a given symbol in a trace. -/
def isRequestFor (sym : String) : Event → Bool
  | Event.request s _ => decide (s = sym)
  | _ => false

/-- Number of provider requests issued for sym, read off the trace. -/
def requestCount (sym : String) (evs : List Event) : Nat :=
  (evs.filter (isRequestFor sym)).length

/-- True of every event except provider requests. -/
def notRequest : Event → Bool
  | Event.request _ _ => false
  | _ => true

/-- Adjacent-pair discipline: a provider request for sym may only follow the
assignment of the custom User-Agent header for that same sym. -/
def reqOk : Event → Event → Bool
  | prev, Event.request sym _ => decide (prev = Event.setHeader sym userAgent)
  | _, _ => true

/-- Walks a trace checking reqOk on every adjacent pair, starting from the
event prev. -/
def chainOk : Event → List Event → Bool
  | _, [] => true
  | prev, e :: rest => reqOk prev e && chainOk e rest

/-- A trace satisfies the header discipline when every provider request event
in it is immediately preceded by the assignment of the custom User-Agent
header for the same symbol (in particular the trace never starts with a
request). -/
def headerDiscipline : List Event → Bool
  | [] => true
  | e :: rest => notRequest e && chainOk e rest

/-- A sample provider table shaped like a yfinance OHLC result: a Date index
with strictly increasing dates and five data columns whose original labels are
deliberately arbitrary (normalization is positional and must ignore them). -/
def sampleFrame : Frame :=
  { indexName := ColName.str "Date",
    indexVals := [100, 101, 102],
    colNames := [ColName.str "B", ColName.str "A", ColName.num 7, ColName.anon,
                 ColName.str "Z"],
    rows := [[1, 2, 3, 4, 5], [6, 7, 8, 9, 10], [11, 12, 13, 14, 15]] }

/-- A provider that raises on every attempt. -/
def sampleErrProvider : Provider := fun _ _ _ => Outcome.err

/-- A provider that returns sampleFrame on every attempt. -/
def sampleOkProvider : Provider := fun _ _ _ => Outcome.ok sampleFrame

/-- A provider that fails on attempt 1 and returns sampleFrame on attempt 2
(0-based attempt index 1). -/
def sampleRecoverProvider : Provider :=
  fun _ _ a => if a = 1 then Outcome.ok sampleFrame else Outcome.err

/-- A constant jitter stream with value 1/2 ∈ [0, 1). -/
def sampleJitter : Jitter := fun _ _ => (1 : ℚ) / 2

/-- A well-formed but empty provider table (no rows). -/
def emptyFrame : Frame :=
  { indexName := ColName.str "Date",
    indexVals := [],
    colNames := [ColName.str "B", ColName.str "A", ColName.num 7, ColName.anon,
                 ColName.str "Z"],
    rows := [] }

/-- A provider that returns an empty table on every attempt. -/
def sampleEmptyProvider : Provider := fun _ _ _ => Outcome.ok emptyFrame

theorem dictFind?_insert_self (k : String) (v : Frame) (m : StockMap) :
    dictFind? k (dictInsert k v m) = some v := by
  induction m with
  | nil => simp [dictInsert, dictFind?]
  | cons kv rest ih =>
    by_cases h : kv.1 = k
    · simp [dictInsert, dictFind?, h]
    · simp [dictInsert, dictFind?, h, ih]

theorem dictFind?_insert_ne (k k2 : String) (v : Frame) (m : StockMap) (h : k ≠ k2) :
    dictFind? k (dictInsert k2 v m) = dictFind? k m := by
  induction m with
  | nil => simp [dictInsert, dictFind?, Ne.symm h]
  | cons kv rest ih =>
    by_cases h2 : kv.1 = k2
    · simp [dictInsert, dictFind?, h2, Ne.symm h]
    · simp [dictInsert, dictFind?, h2, ih]

theorem dictFind?_mem (k : String) (v : Frame) (m : StockMap)
    (h : dictFind? k m = some v) : (k, v) ∈ m := by
  induction m with
  | nil => simp [dictFind?] at h
  | cons kv rest ih =>
    by_cases hk : kv.1 = k
    · simp [dictFind?, hk] at h
      have : kv = (k, v) := by cases kv; simp_all
      rw [← this]
      exact List.mem_cons_self _ _
    · simp [dictFind?, hk] at h
      exact List.mem_cons_of_mem _ (ih h)

theorem mem_dictInsert (k : String) (v : Frame) (m : StockMap) (kv : String × Frame)
    (h : kv ∈ dictInsert k v m) : kv = (k, v) ∨ kv ∈ m := by
  induction m with
  | nil =>
    simp [dictInsert] at h
    left
    exact h
  | cons kv2 rest ih =>
    by_cases h2 : kv2.1 = k
    · simp only [dictInsert, if_pos h2, List.mem_cons] at h
      rcases h with h | h
      · left; exact h
      · right; exact List.mem_cons_of_mem _ h
    · simp only [dictInsert, if_neg h2, List.mem_cons] at h
      rcases h with h | h
      · right; rw [h]; exact List.mem_cons_self _ _
      · rcases ih h with h | h
        · left; exact h
        · right; exact List.mem_cons_of_mem _ h

theorem attemptLoop_fst_jitter (p : Provider) (j1 j2 : Jitter) (period : String)
    (mr : Nat) (sym : String) :
    ∀ fuel att m, (attemptLoop p j1 period mr sym fuel att m).1 =
      (attemptLoop p j2 period mr sym fuel att m).1 := by
  intro fuel
  induction fuel with
  | zero => intro att m; rfl
  | succ fuel ih =>
    intro att m
    cases hp : p sym period att with
    | ok data =>
      by_cases he : data.isEmpty = false
      · simp [attemptLoop, hp, he]
      · simp [attemptLoop, hp, he, ih]
    | err => simp [attemptLoop, hp, ih]

theorem runAux_fst_jitter (p : Provider) (j1 j2 : Jitter) (period : String) (mr : Nat) :
    ∀ symbols m, (runAux p j1 period mr symbols m).1 =
      (runAux p j2 period mr symbols m).1 := by
  intro symbols
  induction symbols with
  | nil => intro m; rfl
  | cons sym rest ih =>
    intro m
    simp only [runAux, perSymbol]
    rw [attemptLoop_fst_jitter p j1 j2 period mr sym mr 0 m]
    exact ih _

/-- C8: for a fixed (deterministic) provider, identical symbol list, period and
max_retries, the returned dictionary is the same whatever the random jitter
stream is: the jitter influences only sleep durations in the side-effect
trace, never the returned data. Two invocations with identical inputs are the
special case j1 = j2. -/
theorem jitter_independent_result (p : Provider) (j1 j2 : Jitter) (symbols : List String)
    (period : String) (max_retries : Int) :
    (download_stock_data p j1 symbols period max_retries).1 =
      (download_stock_data p j2 symbols period max_retries).1 :=
  runAux_fst_jitter p j1 j2 period max_retries.toNat symbols []

/-- C9: with an empty symbol list, download_stock_data returns an empty
dictionary and an empty side-effect trace: no provider request, no header
assignment, and no inter-symbol sleep occurs. -/
theorem empty_symbols_run (p : Provider) (j : Jitter) (period : String)
    (max_retries : Int) :
    download_stock_data p j [] period max_retries = ([], []) := rfl

theorem runAux_zero_retries (p : Provider) (j : Jitter) (period : String) :
    ∀ symbols m, runAux p j period 0 symbols m =
      (m, symbols.map fun _ => Event.sleepInterSymbol ((3 : ℚ) / 2)) := by
  intro symbols
  induction symbols with
  | nil => intro m; rfl
  | cons sym rest ih =>
    intro m
    simp [runAux, perSymbol, attemptLoop, ih]

/-- C10: with max_retries ≤ 0 the loop range(max_retries) is empty, so for any
symbol list no provider request at all is made and the returned dictionary is
empty, yet the unconditional time.sleep(1.5) still runs once per symbol: the
trace is exactly one 1.5-second inter-symbol sleep per input symbol. -/
theorem nonpositive_retries (p : Provider) (j : Jitter) (symbols : List String)
    (period : String) (max_retries : Int) (h : max_retries ≤ 0) :
    (download_stock_data p j symbols period max_retries).1 = [] ∧
    (download_stock_data p j symbols period max_retries).2 =
      symbols.map fun _ => Event.sleepInterSymbol ((3 : ℚ) / 2) := by
  have h0 : max_retries.toNat = 0 := Int.toNat_of_nonpos h
  unfold download_stock_data
  rw [h0, runAux_zero_retries]
  exact ⟨rfl, rfl⟩

theorem nonpositive_retries_witness :
    ((-1 : Int) ≤ 0) ∧
    ((download_stock_data sampleOkProvider sampleJitter ["AAPL"] "1y" (-1)).1 = [] ∧
     (download_stock_data sampleOkProvider sampleJitter ["AAPL"] "1y" (-1)).2 =
       ["AAPL"].map fun _ => Event.sleepInterSymbol ((3 : ℚ) / 2)) :=
  ⟨by decide,
   nonpositive_retries sampleOkProvider sampleJitter ["AAPL"] "1y" (-1) (by decide)⟩

theorem zipWith_cons_map_getD (xs : List Int) (ys : List (List Int))
    (h : ys.length = xs.length) :
    (List.zipWith (fun d r => d :: r) xs ys).map (fun r => r.getD 0 0) = xs := by
  induction xs generalizing ys with
  | nil => simp
  | cons x xs ih =>
    cases ys with
    | nil => simp at h
    | cons y ys =>
      simp only [List.length_cons, Nat.add_right_cancel_iff] at h
      simp only [List.zipWith_cons_cons, List.map_cons, List.getD_cons_zero]
      rw [ih ys h]

theorem zipWith_cons_map_eraseIdx (xs : List Int) (ys : List (List Int))
    (h : ys.length = xs.length) :
    (List.zipWith (fun d r => d :: r) xs ys).map (fun r => r.eraseIdx 0) = ys := by
  induction xs generalizing ys with
  | nil => cases ys <;> simp_all
  | cons x xs ih =>
    cases ys with
    | nil => simp at h
    | cons y ys =>
      simp only [List.length_cons, Nat.add_right_cancel_iff] at h
      simp only [List.zipWith_cons_cons, List.map_cons, List.eraseIdx]
      rw [ih ys h]

theorem normalizeData_fields (f : Frame) (hwf : f.rows.length = f.indexVals.length) :
    (normalizeData f).indexName = ColName.str "Date" ∧
    (normalizeData f).indexVals = f.indexVals ∧
    (normalizeData f).colNames =
      (List.range f.colNames.length).map (fun i => renameLabel (ColName.num (i + 1))) ∧
    (normalizeData f).rows = f.rows := by
  obtain ⟨iN, iV, cN, rws⟩ := f
  simp only at hwf
  have hnames : ((List.range (iN :: cN).length).map ColName.num).map renameLabel =
      ColName.str "Date" ::
        (List.range cN.length).map (fun i => renameLabel (ColName.num (i + 1))) := by
    simp [List.range_succ_eq_map, List.map_map, Function.comp, renameLabel]
  simp only [normalizeData, resetIndex, setRangeColumns, renameColumns, setIndex]
  rw [hnames]
  simp only [List.findIdx?_cons, decide_True, if_pos rfl]
  refine ⟨rfl, ?_, ?_, ?_⟩
  · exact zipWith_cons_map_getD iV rws hwf
  · simp [List.eraseIdx]
  · exact zipWith_cons_map_eraseIdx iV rws hwf

/-- C4: for any provider table with the yfinance shape (five data columns,
one row per index entry), normalization relabels the positional columns
0..5 of the reset table to Date, Close, High, Low, Open, Volume exactly,
whatever the original column labels were, and Date becomes the ordering key
(the index) rather than a data column; index values and row data pass
through unchanged. -/
theorem normalization_positional (f : Frame) (h5 : f.colNames.length = 5)
    (hwf : f.rows.length = f.indexVals.length) :
    normalizeData f =
      { indexName := ColName.str "Date",
        indexVals := f.indexVals,
        colNames := [ColName.str "Close", ColName.str "High", ColName.str "Low",
                     ColName.str "Open", ColName.str "Volume"],
        rows := f.rows } := by
  obtain ⟨h1, h2, h3, h4⟩ := normalizeData_fields f hwf
  rw [h5] at h3
  have h3' : (normalizeData f).colNames =
      [ColName.str "Close", ColName.str "High", ColName.str "Low",
       ColName.str "Open", ColName.str "Volume"] := by rw [h3]; rfl
  cases hval : normalizeData f with
  | mk a b c d =>
    rw [hval] at h1 h2 h3' h4
    simp_all

theorem normalization_positional_witness :
    (sampleFrame.colNames.length = 5 ∧
     sampleFrame.rows.length = sampleFrame.indexVals.length) ∧
    normalizeData sampleFrame =
      { indexName := ColName.str "Date",
        indexVals := sampleFrame.indexVals,
        colNames := [ColName.str "Close", ColName.str "High", ColName.str "Low",
                     ColName.str "Open", ColName.str "Volume"],
        rows := sampleFrame.rows } :=
  ⟨⟨rfl, rfl⟩, normalization_positional sampleFrame rfl rfl⟩

theorem attemptLoop_fst_of_fail (p : Provider) (j : Jitter) (period : String)
    (mr : Nat) (sym : String) :
    ∀ fuel att m, (∀ i, att ≤ i → i < att + fuel → (p sym period i).succeeds = false) →
      (attemptLoop p j period mr sym fuel att m).1 = m := by
  intro fuel
  induction fuel with
  | zero => intro att m _; rfl
  | succ fuel ih =>
    intro att m hfail
    have hatt : (p sym period att).succeeds = false :=
      hfail att (Nat.le_refl att) (by omega)
    cases hp : p sym period att with
    | ok data =>
      rw [hp] at hatt
      have he : ¬ data.isEmpty = false := by
        simp [Outcome.succeeds] at hatt
        simp [hatt]
      simp only [attemptLoop, hp, if_neg he]
      exact ih (att + 1) m (fun i h1 h2 => hfail i (by omega) (by omega))
    | err =>
      simp only [attemptLoop, hp]
      exact ih (att + 1) m (fun i h1 h2 => hfail i (by omega) (by omega))

theorem attemptLoop_fst_find_ne (p : Provider) (j : Jitter) (period : String)
    (mr : Nat) (sym : String) (k : String) (hk : k ≠ sym) :
    ∀ fuel att m, dictFind? k (attemptLoop p j period mr sym fuel att m).1 =
      dictFind? k m := by
  intro fuel
  induction fuel with
  | zero => intro att m; rfl
  | succ fuel ih =>
    intro att m
    cases hp : p sym period att with
    | ok data =>
      by_cases he : data.isEmpty = false
      · simp only [attemptLoop, hp, if_pos he]
        exact dictFind?_insert_ne k sym (normalizeData data) m hk
      · simp only [attemptLoop, hp, if_neg he]
        exact ih (att + 1) m
    | err =>
      simp only [attemptLoop, hp]
      exact ih (att + 1) m

theorem attemptLoop_fst_provenance (p : Provider) (j : Jitter) (period : String)
    (mr : Nat) (sym : String) :
    ∀ fuel att m kv, kv ∈ (attemptLoop p j period mr sym fuel att m).1 →
      kv ∈ m ∨ (kv.1 = sym ∧ ∃ i f, att ≤ i ∧ i < att + fuel ∧
        p sym period i = Outcome.ok f ∧ f.isEmpty = false ∧ kv.2 = normalizeData f) := by
  intro fuel
  induction fuel with
  | zero => intro att m kv h; left; exact h
  | succ fuel ih =>
    intro att m kv h
    cases hp : p sym period att with
    | ok data =>
      by_cases he : data.isEmpty = false
      · simp only [attemptLoop, hp, if_pos he] at h
        rcases mem_dictInsert sym (normalizeData data) m kv h with h | h
        · right
          refine ⟨by rw [h], att, data, Nat.le_refl att, by omega, hp, he, by rw [h]⟩
        · left; exact h
      · simp only [attemptLoop, hp, if_neg he] at h
        rcases ih (att + 1) m kv h with h | ⟨h1, i, f, hi1, hi2, h2, h3, h4⟩
        · left; exact h
        · right; exact ⟨h1, i, f, by omega, by omega, h2, h3, h4⟩
    | err =>
      simp only [attemptLoop, hp] at h
      rcases ih (att + 1) m kv h with h | ⟨h1, i, f, hi1, hi2, h2, h3, h4⟩
      · left; exact h
      · right; exact ⟨h1, i, f, by omega, by omega, h2, h3, h4⟩

theorem runAux_fst_provenance (p : Provider) (j : Jitter) (period : String) (mr : Nat) :
    ∀ symbols m kv, kv ∈ (runAux p j period mr symbols m).1 →
      kv ∈ m ∨ (kv.1 ∈ symbols ∧ ∃ i f, i < mr ∧
        p kv.1 period i = Outcome.ok f ∧ f.isEmpty = false ∧ kv.2 = normalizeData f) := by
  intro symbols
  induction symbols with
  | nil => intro m kv h; left; exact h
  | cons sym rest ih =>
    intro m kv h
    simp only [runAux, perSymbol] at h
    rcases ih _ kv h with h | ⟨h1, i, f, hi, h2, h3, h4⟩
    · rcases attemptLoop_fst_provenance p j period mr sym mr 0 m kv h with
        h | ⟨h1, i, f, _, hi, h2, h3, h4⟩
      · left; exact h
      · right
        refine ⟨by rw [h1]; exact List.mem_cons_self _ _, i, f, by omega, ?_, h3, h4⟩
        rw [h1]; exact h2
    · right; exact ⟨List.mem_cons_of_mem _ h1, i, f, hi, h2, h3, h4⟩

theorem runAux_fst_find_none (p : Provider) (j : Jitter) (period : String) (mr : Nat)
    (sym : String) (hfail : ∀ i, i < mr → (p sym period i).succeeds = false) :
    ∀ symbols m, dictFind? sym m = none →
      dictFind? sym (runAux p j period mr symbols m).1 = none := by
  intro symbols
  induction symbols with
  | nil => intro m hm; exact hm
  | cons s rest ih =>
    intro m hm
    simp only [runAux, perSymbol]
    apply ih
    by_cases hs : sym = s
    · subst hs
      rw [attemptLoop_fst_of_fail p j period mr sym mr 0 m
        (fun i h1 h2 => hfail i (by omega))]
      exact hm
    · rw [attemptLoop_fst_find_ne p j period mr s sym hs mr 0 m]
      exact hm

/-- C2: per-symbol error containment. The run is a total function of the
provider oracle: for every symbol list and every provider behaviour,
including a provider that raises on every attempt, the call returns a
dictionary (exceptions are caught inside the per-symbol loop and never
escape), and a symbol none of whose max_retries attempts returns a non-empty
frame is simply absent from the returned dictionary. -/
theorem per_symbol_error_containment (p : Provider) (j : Jitter)
    (symbols : List String) (period : String) (max_retries : Int) (sym : String)
    (hfail : ∀ i, i < max_retries.toNat → (p sym period i).succeeds = false) :
    dictFind? sym (download_stock_data p j symbols period max_retries).1 = none :=
  runAux_fst_find_none p j period max_retries.toNat sym hfail symbols [] rfl

theorem per_symbol_error_containment_witness :
    ((sampleErrProvider "BADSYM" "1y" 0).succeeds = false ∧
     (sampleErrProvider "BADSYM" "1y" 1).succeeds = false) ∧
    dictFind? "BADSYM"
      (download_stock_data sampleErrProvider sampleJitter ["AAPL", "BADSYM"] "1y" 2).1 =
      none :=
  ⟨⟨rfl, rfl⟩,
   per_symbol_error_containment sampleErrProvider sampleJitter ["AAPL", "BADSYM"]
     "1y" 2 "BADSYM" (fun i _ => rfl)⟩

/-- C5: ResultSet membership invariant. Every entry of the returned
dictionary has a key from the input symbol list and a value produced by
normalizing a non-empty frame that the provider returned on some attempt
below max_retries; and an attempt sequence that never succeeds leaves the
dictionary exactly as it was, so an entry already present is never
overwritten by later failed attempts. -/
theorem resultset_membership (p : Provider) (j : Jitter) (symbols : List String)
    (period : String) (max_retries : Int) :
    (∀ kv, kv ∈ (download_stock_data p j symbols period max_retries).1 →
       kv.1 ∈ symbols ∧ ∃ i f, i < max_retries.toNat ∧
         p kv.1 period i = Outcome.ok f ∧ f.isEmpty = false ∧
         kv.2 = normalizeData f) ∧
    (∀ sym m, (∀ i, i < max_retries.toNat → (p sym period i).succeeds = false) →
       (perSymbol p j period max_retries.toNat sym m).1 = m) := by
  constructor
  · intro kv h
    rcases runAux_fst_provenance p j period max_retries.toNat symbols [] kv h with
      h | ⟨h1, hex⟩
    · simp at h
    · exact ⟨h1, hex⟩
  · intro sym m hfail
    simp only [perSymbol]
    exact attemptLoop_fst_of_fail p j period max_retries.toNat sym max_retries.toNat 0 m
      (fun i h1 h2 => hfail i (by omega))

theorem resultset_membership_witness :
    (("A", normalizeData sampleFrame) ∈
       (download_stock_data sampleRecoverProvider sampleJitter ["A"] "1y" 3).1 ∧
     (sampleErrProvider "B" "1y" 0).succeeds = false) ∧
    ((("A", normalizeData sampleFrame).1 ∈ ["A"] ∧ ∃ i f, i < (3 : Int).toNat ∧
        sampleRecoverProvider ("A", normalizeData sampleFrame).1 "1y" i = Outcome.ok f ∧
        f.isEmpty = false ∧ ("A", normalizeData sampleFrame).2 = normalizeData f) ∧
     (perSymbol sampleErrProvider sampleJitter "1y" (3 : Int).toNat "B" []).1 = []) :=
  ⟨⟨by decide, rfl⟩,
   ⟨(resultset_membership sampleRecoverProvider sampleJitter ["A"] "1y" 3).1
      ("A", normalizeData sampleFrame) (by decide),
    (resultset_membership sampleErrProvider sampleJitter ["A"] "1y" 3).2 "B" []
      (fun i _ => rfl)⟩⟩

theorem requestCount_cons (sym : String) (e : Event) (evs : List Event) :
    requestCount sym (e :: evs) =
      (if isRequestFor sym e then 1 else 0) + requestCount sym evs := by
  simp only [requestCount, List.filter]
  cases h : isRequestFor sym e <;> simp <;> omega

theorem requestCount_append (sym : String) (xs ys : List Event) :
    requestCount sym (xs ++ ys) = requestCount sym xs + requestCount sym ys := by
  simp [requestCount, List.filter_append]

theorem attemptLoop_first_success (p : Provider) (j : Jitter) (period : String)
    (mr : Nat) (sym : String) (f : Frame) (hne : f.isEmpty = false) :
    ∀ kk fuel att m, kk < fuel →
      (∀ i, att ≤ i → i < att + kk → (p sym period i).succeeds = false) →
      p sym period (att + kk) = Outcome.ok f →
      (attemptLoop p j period mr sym fuel att m).1 =
          dictInsert sym (normalizeData f) m ∧
        requestCount sym (attemptLoop p j period mr sym fuel att m).2 = kk + 1 := by
  intro kk
  induction kk with
  | zero =>
    intro fuel att m hlt _ hsucc
    cases fuel with
    | zero => omega
    | succ fuel =>
      simp only [Nat.add_zero] at hsucc
      simp only [attemptLoop, hsucc, if_pos hne]
      refine ⟨by simp, by simp [requestCount, isRequestFor]⟩
  | succ kk ih =>
    intro fuel att m hlt hbefore hsucc
    cases fuel with
    | zero => omega
    | succ fuel =>
      have hshift : p sym period (att + 1 + kk) = Outcome.ok f := by
        rw [show att + 1 + kk = att + (kk + 1) by omega]
        exact hsucc
      have hrec := ih fuel (att + 1) m (by omega)
        (fun i h1 h2 => hbefore i (by omega) (by omega)) hshift
      have hatt : (p sym period att).succeeds = false :=
        hbefore att (Nat.le_refl att) (by omega)
      cases hp : p sym period att with
      | ok data =>
        rw [hp] at hatt
        have he : ¬ data.isEmpty = false := by
          simp [Outcome.succeeds] at hatt
          simp [hatt]
        simp only [attemptLoop, hp, if_neg he]
        refine ⟨hrec.1, ?_⟩
        rw [requestCount_cons, requestCount_cons, requestCount_append]
        have hsleeps : requestCount sym
            (if att < mr - 1 then [Event.sleepEmpty sym att 2] else []) = 0 := by
          split <;> simp [requestCount, isRequestFor]
        rw [hsleeps, hrec.2]
        simp [isRequestFor]
        omega
      | err =>
        simp only [attemptLoop, hp]
        refine ⟨hrec.1, ?_⟩
        rw [requestCount_cons, requestCount_cons, requestCount_append]
        have hsleeps : requestCount sym
            (if att < mr - 1 then
              [Event.sleepBackoff sym att ((2 : ℚ) ^ att + j sym att)]
            else []) = 0 := by
          split <;> simp [requestCount, isRequestFor]
        rw [hsleeps, hrec.2]
        simp [isRequestFor]
        omega

/-- C1: first success wins. If along the retry loop for a symbol the first
a - 1 attempts do not return a non-empty frame (so the loop reaches attempt a,
1-based, a ≤ maxRetries) and attempt a returns the non-empty frame f, then
the per-symbol run starting from any dictionary stores the normalized frame
under that symbol and makes exactly a provider requests: the break terminates
the loop even though a < maxRetries may leave attempts unused. -/
theorem first_success_wins (p : Provider) (j : Jitter) (period : String)
    (maxRetries : Nat) (sym : String) (m : StockMap) (a : Nat) (f : Frame)
    (ha : 1 ≤ a) (hamr : a ≤ maxRetries)
    (hbefore : ∀ i, i < a - 1 → (p sym period i).succeeds = false)
    (hsucc : p sym period (a - 1) = Outcome.ok f) (hne : f.isEmpty = false) :
    dictFind? sym (perSymbol p j period maxRetries sym m).1 =
        some (normalizeData f) ∧
      requestCount sym (perSymbol p j period maxRetries sym m).2 = a := by
  have h := attemptLoop_first_success p j period maxRetries sym f hne (a - 1)
    maxRetries 0 m (by omega) (fun i h1 h2 => hbefore i (by omega))
    (by simpa using hsucc)
  constructor
  · simp only [perSymbol]
    rw [h.1]
    exact dictFind?_insert_self sym (normalizeData f) m
  · simp only [perSymbol]
    rw [requestCount_append, h.2]
    simp [requestCount, isRequestFor]
    omega

theorem first_success_wins_witness :
    (1 ≤ 2 ∧ 2 ≤ 3 ∧ sampleRecoverProvider "A" "1y" 1 = Outcome.ok sampleFrame ∧
     sampleFrame.isEmpty = false) ∧
    (dictFind? "A" (perSymbol sampleRecoverProvider sampleJitter "1y" 3 "A" []).1 =
        some (normalizeData sampleFrame) ∧
      requestCount "A" (perSymbol sampleRecoverProvider sampleJitter "1y" 3 "A" []).2 =
        2) :=
  ⟨⟨by omega, by omega, by decide, by decide⟩,
   first_success_wins sampleRecoverProvider sampleJitter "1y" 3 "A" [] 2 sampleFrame
     (by omega) (by omega)
     (fun i hi => by
       have h0 : i = 0 := by omega
       subst h0
       rfl)
     (by decide) (by decide)⟩

theorem attemptLoop_backoff_mem (p : Provider) (j : Jitter) (period : String)
    (mr : Nat) (sym : String) :
    ∀ fuel att m s i d,
      Event.sleepBackoff s i d ∈ (attemptLoop p j period mr sym fuel att m).2 →
      s = sym ∧ p s period i = Outcome.err ∧ d = (2 : ℚ) ^ i + j s i ∧ i + 2 ≤ mr := by
  intro fuel
  induction fuel with
  | zero => intro att m s i d h; simp [attemptLoop] at h
  | succ fuel ih =>
    intro att m s i d h
    cases hp : p sym period att with
    | ok data =>
      by_cases he : data.isEmpty = false
      · simp only [attemptLoop, hp, if_pos he] at h
        simp at h
      · by_cases hlt : att < mr - 1
        · simp only [attemptLoop, hp, if_neg he, if_pos hlt, List.mem_cons,
            List.mem_append, List.mem_singleton] at h
          rcases h with h | h | (h | h) | h
          · simp at h
          · simp at h
          · simp at h
          · simp at h
          · exact ih (att + 1) m s i d h
        · simp only [attemptLoop, hp, if_neg he, if_neg hlt, List.mem_cons,
            List.nil_append] at h
          rcases h with h | h | h
          · simp at h
          · simp at h
          · exact ih (att + 1) m s i d h
    | err =>
      by_cases hlt : att < mr - 1
      · simp only [attemptLoop, hp, if_pos hlt, List.mem_cons, List.mem_append,
          List.mem_singleton] at h
        rcases h with h | h | (h | h) | h
        · simp at h
        · simp at h
        · rw [Event.sleepBackoff.injEq] at h
          obtain ⟨hs, hi, hd⟩ := h
          subst hs; subst hi
          exact ⟨rfl, hp, hd, by omega⟩
        · simp at h
        · exact ih (att + 1) m s i d h
      · simp only [attemptLoop, hp, if_neg hlt, List.mem_cons, List.nil_append] at h
        rcases h with h | h | h
        · simp at h
        · simp at h
        · exact ih (att + 1) m s i d h

theorem attemptLoop_empty_mem (p : Provider) (j : Jitter) (period : String)
    (mr : Nat) (sym : String) :
    ∀ fuel att m s i d,
      Event.sleepEmpty s i d ∈ (attemptLoop p j period mr sym fuel att m).2 →
      d = 2 ∧ i + 2 ≤ mr := by
  intro fuel
  induction fuel with
  | zero => intro att m s i d h; simp [attemptLoop] at h
  | succ fuel ih =>
    intro att m s i d h
    cases hp : p sym period att with
    | ok data =>
      by_cases he : data.isEmpty = false
      · simp only [attemptLoop, hp, if_pos he] at h
        simp at h
      · by_cases hlt : att < mr - 1
        · simp only [attemptLoop, hp, if_neg he, if_pos hlt, List.mem_cons,
            List.mem_append, List.mem_singleton] at h
          rcases h with h | h | (h | h) | h
          · simp at h
          · simp at h
          · rw [Event.sleepEmpty.injEq] at h
            obtain ⟨hs, hi, hd⟩ := h
            subst hi
            exact ⟨hd, by omega⟩
          · simp at h
          · exact ih (att + 1) m s i d h
        · simp only [attemptLoop, hp, if_neg he, if_neg hlt, List.mem_cons,
            List.nil_append] at h
          rcases h with h | h | h
          · simp at h
          · simp at h
          · exact ih (att + 1) m s i d h
    | err =>
      by_cases hlt : att < mr - 1
      · simp only [attemptLoop, hp, if_pos hlt, List.mem_cons, List.mem_append,
          List.mem_singleton] at h
        rcases h with h | h | (h | h) | h
        · simp at h
        · simp at h
        · simp at h
        · simp at h
        · exact ih (att + 1) m s i d h
      · simp only [attemptLoop, hp, if_neg hlt, List.mem_cons, List.nil_append] at h
        rcases h with h | h | h
        · simp at h
        · simp at h
        · exact ih (att + 1) m s i d h

theorem runAux_backoff_mem (p : Provider) (j : Jitter) (period : String) (mr : Nat) :
    ∀ symbols m s i d,
      Event.sleepBackoff s i d ∈ (runAux p j period mr symbols m).2 →
      p s period i = Outcome.err ∧ d = (2 : ℚ) ^ i + j s i ∧ i + 2 ≤ mr := by
  intro symbols
  induction symbols with
  | nil => intro m s i d h; simp [runAux] at h
  | cons sym rest ih =>
    intro m s i d h
    simp only [runAux, perSymbol, List.mem_append, List.mem_singleton] at h
    rcases h with (h | h) | h
    · obtain ⟨hs, h2, h3, h4⟩ := attemptLoop_backoff_mem p j period mr sym mr 0 m s i d h
      exact ⟨h2, h3, h4⟩
    · simp at h
    · exact ih _ s i d h

theorem runAux_empty_mem (p : Provider) (j : Jitter) (period : String) (mr : Nat) :
    ∀ symbols m s i d,
      Event.sleepEmpty s i d ∈ (runAux p j period mr symbols m).2 →
      d = 2 ∧ i + 2 ≤ mr := by
  intro symbols
  induction symbols with
  | nil => intro m s i d h; simp [runAux] at h
  | cons sym rest ih =>
    intro m s i d h
    simp only [runAux, perSymbol, List.mem_append, List.mem_singleton] at h
    rcases h with (h | h) | h
    · exact attemptLoop_empty_mem p j period mr sym mr 0 m s i d h
    · simp at h
    · exact ih _ s i d h

/-- C3: backoff delays, read off the side-effect trace of a whole run. Every
backoff sleep recorded for 0-based attempt i (so before 1-based attempt
k = i + 2) follows a provider error there and lasts 2 ^ i + r = 2 ^ (k - 2) + r
seconds where r = j s i is the jitter draw with 0 ≤ r < 1; every
empty-result sleep lasts exactly 2 seconds, not exponential; and both kinds
of sleep satisfy i + 2 ≤ maxRetries, i.e. no backoff or empty-result sleep
ever follows the final attempt. -/
theorem backoff_delays (p : Provider) (j : Jitter) (symbols : List String)
    (period : String) (max_retries : Int)
    (hj : ∀ s i, 0 ≤ j s i ∧ j s i < 1) :
    (∀ s i d,
       Event.sleepBackoff s i d ∈ (download_stock_data p j symbols period max_retries).2 →
       p s period i = Outcome.err ∧ d = (2 : ℚ) ^ i + j s i ∧
       (2 : ℚ) ^ i ≤ d ∧ d < (2 : ℚ) ^ i + 1 ∧ i + 2 ≤ max_retries.toNat) ∧
    (∀ s i d,
       Event.sleepEmpty s i d ∈ (download_stock_data p j symbols period max_retries).2 →
       d = 2 ∧ i + 2 ≤ max_retries.toNat) := by
  constructor
  · intro s i d h
    obtain ⟨h1, h2, h3⟩ :=
      runAux_backoff_mem p j period max_retries.toNat symbols [] s i d h
    obtain ⟨hj1, hj2⟩ := hj s i
    refine ⟨h1, h2, ?_, ?_, h3⟩
    · rw [h2]; linarith
    · rw [h2]; linarith
  · intro s i d h
    exact runAux_empty_mem p j period max_retries.toNat symbols [] s i d h

theorem backoff_delays_witness :
    ((0 : ℚ) ≤ sampleJitter "A" 0 ∧ sampleJitter "A" 0 < 1) ∧
    ((sampleErrProvider "A" "1y" 0 = Outcome.err ∧
      (3 : ℚ) / 2 = (2 : ℚ) ^ 0 + sampleJitter "A" 0 ∧
      (2 : ℚ) ^ 0 ≤ (3 : ℚ) / 2 ∧ (3 : ℚ) / 2 < (2 : ℚ) ^ 0 + 1 ∧
      0 + 2 ≤ (2 : Int).toNat) ∧
     ((2 : ℚ) = 2 ∧ 0 + 2 ≤ (2 : Int).toNat)) := by
  refine ⟨by constructor <;> norm_num [sampleJitter], ?_, ?_⟩
  · exact (backoff_delays sampleErrProvider sampleJitter ["A"] "1y" 2
      (fun s i => by constructor <;> norm_num [sampleJitter])).1 "A" 0 ((3 : ℚ) / 2)
      (by norm_num [download_stock_data, runAux, perSymbol, attemptLoop,
        sampleErrProvider, sampleJitter, userAgent])
  · exact (backoff_delays sampleEmptyProvider sampleJitter ["B"] "1y" 2
      (fun s i => by constructor <;> norm_num [sampleJitter])).2 "B" 0 2
      (by norm_num [download_stock_data, runAux, perSymbol, attemptLoop,
        sampleEmptyProvider, sampleJitter, emptyFrame, Frame.isEmpty, userAgent])

theorem reqOk_of_notRequest (prev e : Event) (h : notRequest e = true) :
    reqOk prev e = true := by
  cases e <;> simp_all [reqOk, notRequest]

theorem chainOk_append (xs : List Event) :
    ∀ prev ys, chainOk prev xs = true → headerDiscipline ys = true →
      chainOk prev (xs ++ ys) = true := by
  induction xs with
  | nil =>
    intro prev ys _ hys
    cases ys with
    | nil => rfl
    | cons e rest =>
      simp only [headerDiscipline, Bool.and_eq_true] at hys
      simp only [List.nil_append, chainOk, Bool.and_eq_true]
      exact ⟨reqOk_of_notRequest prev e hys.1, hys.2⟩
  | cons x xs ih =>
    intro prev ys h hys
    simp only [chainOk, Bool.and_eq_true] at h
    simp only [List.cons_append, chainOk, Bool.and_eq_true]
    exact ⟨h.1, ih x ys h.2 hys⟩

theorem headerDiscipline_append (xs ys : List Event)
    (hx : headerDiscipline xs = true) (hy : headerDiscipline ys = true) :
    headerDiscipline (xs ++ ys) = true := by
  cases xs with
  | nil => exact hy
  | cons e rest =>
    simp only [headerDiscipline, Bool.and_eq_true] at hx
    simp only [List.cons_append, headerDiscipline, Bool.and_eq_true]
    exact ⟨hx.1, chainOk_append rest e ys hx.2 hy⟩

theorem attemptLoop_headerDiscipline (p : Provider) (j : Jitter) (period : String)
    (mr : Nat) (sym : String) :
    ∀ fuel att m,
      headerDiscipline (attemptLoop p j period mr sym fuel att m).2 = true := by
  intro fuel
  induction fuel with
  | zero => intro att m; rfl
  | succ fuel ih =>
    intro att m
    cases hp : p sym period att with
    | ok data =>
      by_cases he : data.isEmpty = false
      · simp [attemptLoop, hp, he, headerDiscipline, chainOk, reqOk, notRequest]
      · simp only [attemptLoop, hp, if_neg he]
        simp only [headerDiscipline, notRequest, Bool.true_and, chainOk, reqOk,
          Bool.and_eq_true]
        refine ⟨by simp, ?_⟩
        apply chainOk_append
        · split <;> simp [chainOk, reqOk]
        · exact ih (att + 1) m
    | err =>
      simp only [attemptLoop, hp]
      simp only [headerDiscipline, notRequest, Bool.true_and, chainOk, reqOk,
        Bool.and_eq_true]
      refine ⟨by simp, ?_⟩
      apply chainOk_append
      · split <;> simp [chainOk, reqOk]
      · exact ih (att + 1) m

theorem runAux_headerDiscipline (p : Provider) (j : Jitter) (period : String)
    (mr : Nat) :
    ∀ symbols m, headerDiscipline (runAux p j period mr symbols m).2 = true := by
  intro symbols
  induction symbols with
  | nil => intro m; rfl
  | cons sym rest ih =>
    intro m
    simp only [runAux]
    apply headerDiscipline_append
    · simp only [perSymbol]
      apply headerDiscipline_append
      · exact attemptLoop_headerDiscipline p j period mr sym mr 0 m
      · rfl
    · exact ih _

/-- C6: before each provider download request, the custom descriptive
User-Agent header is assigned on the per-symbol client: in the side-effect
trace of any run, every request event is immediately preceded by the
setHeader event carrying userAgent for the same symbol. -/
theorem header_before_every_request (p : Provider) (j : Jitter)
    (symbols : List String) (period : String) (max_retries : Int) :
    headerDiscipline (download_stock_data p j symbols period max_retries).2 = true :=
  runAux_headerDiscipline p j period max_retries.toNat symbols []

/-- C7: PriceSeries date invariant. The source performs no sorting or
de-duplication, so the invariant is conditional on the provider: if every
non-empty frame the provider returns is well formed with strictly increasing
index dates, then every series stored in the returned dictionary has strictly
increasing dates (List.Pairwise (· < ·), which also forces every date to
appear at most once), because normalization passes the index values through
unchanged. -/
theorem dates_strictly_increasing (p : Provider) (j : Jitter)
    (symbols : List String) (period : String) (max_retries : Int)
    (hp : ∀ s i f, p s period i = Outcome.ok f → f.isEmpty = false →
       List.Pairwise (· < ·) f.indexVals ∧ f.rows.length = f.indexVals.length) :
    ∀ sym fr,
      dictFind? sym (download_stock_data p j symbols period max_retries).1 = some fr →
      List.Pairwise (· < ·) fr.indexVals := by
  intro sym fr h
  have hmem := dictFind?_mem sym fr _ h
  rcases runAux_fst_provenance p j period max_retries.toNat symbols [] (sym, fr) hmem
    with hnil | ⟨_, i, f, _, hok, hne, hval⟩
  · simp at hnil
  · obtain ⟨hpair, hlen⟩ := hp sym i f hok hne
    simp only at hval
    rw [hval, (normalizeData_fields f hlen).2.1]
    exact hpair

theorem dates_strictly_increasing_witness :
    (List.Pairwise (· < ·) sampleFrame.indexVals ∧
     sampleFrame.rows.length = sampleFrame.indexVals.length) ∧
    List.Pairwise (· < ·) (normalizeData sampleFrame).indexVals :=
  ⟨⟨by decide, rfl⟩,
   dates_strictly_increasing sampleOkProvider sampleJitter ["A"] "1y" 1
     (fun s i f hok hne => by
       simp only [sampleOkProvider] at hok
       injection hok with h
       subst h
       exact ⟨by decide, rfl⟩)
     "A" (normalizeData sampleFrame) (by decide)⟩
